import Mathlib

/-!
Verification development for the QMS_ice signal-integration engine
(`src/qms_integrate.py`, entry wiring in `main.py`).

Numeric model: floating-point sample values are modelled as exact rationals
(`ℚ`); arrays are lists.  numpy's guarded divisions (`np.true_divide` with
`where=den != 0, out=zeros`) return 0 on a zero denominator, which coincides
with Lean's division-by-zero convention on `ℚ`.

A separate model (`integrate_signal_ieee`) re-translates the same source
function with non-finite sample values represented as `none` (arithmetic
propagates non-finiteness), for the claims that concern NaN data.
-/

namespace QMSIce

/-- A data table: the Python `dict[str, np.ndarray]` of named channels.
Keys are assumed unique (dictionary semantics). -/
abbrev Table := List (String × List ℚ)

/-- The error values raised by the integration module.

* `rangeError x_min x_max` models
  `ValueError(f"Integration region [{x_min}, {x_max}] outside data range.")`
  raised by `integrate_signal` — the message interpolates only the requested
  window endpoints, plus fixed text.
* `narrowRange` models
  `ValueError("Integration range is too narrow or outside data limits.")`
  raised by `integrate_photon_flux` — a fixed message.
* `missingColumn tk pk` models
  `KeyError(f"Missing column: '{tk}' or '{pk}' not found in data.")`
  raised by `integrate_photon_flux`; the message always interpolates both
  key names.
* `keyError k` models the Python `KeyError` raised by a failed dictionary
  lookup `data[k]`. -/
inductive QmsError where
  | rangeError (x_min x_max : ℚ)
  | narrowRange
  | missingColumn (time_key photon_key : String)
  | keyError (key : String)
  deriving Repr, DecidableEq

/-- `mask = (x >= x_min) & (x <= x_max)` (numpy elementwise comparison). -/
def boolMask (x : List ℚ) (x_min x_max : ℚ) : List Bool :=
  x.map (fun v => decide (x_min ≤ v) && decide (v ≤ x_max))

/-- numpy boolean-mask indexing `v[mask]` (mask and array of equal length). -/
def maskSelect {α : Type} (m : List Bool) (v : List α) : List α :=
  ((m.zip v).filter (fun p => p.1)).map (fun p => p.2)

/-- One term of scipy's `_basic_simpson` for possibly non-uniform spacing:
`hsum/6 * (y0*(2 - 1/h0divh1) + y1*(hsum*(hsum/hprod)) + y2*(2 - h0divh1))`
with `h0 = x1 - x0`, `h1 = x2 - x1`.  scipy guards each division with
`where=den != 0` returning 0, which is exactly `ℚ`'s division by zero. -/
def simpsonTerm (y0 y1 y2 x0 x1 x2 : ℚ) : ℚ :=
  let h0 := x1 - x0
  let h1 := x2 - x1
  let hsum := h0 + h1
  let hprod := h0 * h1
  let h0divh1 := h0 / h1
  hsum / 6 * (y0 * (2 - 1 / h0divh1) + y1 * (hsum * (hsum / hprod)) + y2 * (2 - h0divh1))

/-- scipy's `_basic_simpson` vectorised sum, as a two-at-a-time recursion:
triples at indices (0,1,2), (2,3,4), …  For an odd number of samples this
covers the whole list; for an even number it covers the first `N-1` samples,
exactly as scipy's even-sample branch invokes it. -/
def basicSimpson : List ℚ → List ℚ → ℚ
  | y0 :: y1 :: y2 :: ys, x0 :: x1 :: x2 :: xs =>
      simpsonTerm y0 y1 y2 x0 x1 x2 + basicSimpson (y2 :: ys) (x2 :: xs)
  | _, _ => 0

/-- Modelled from the spec and scipy's documented algorithm:
`scipy.integrate.simpson(y, x)` (the library routine called by the source;
its code is not part of this repository).  Composite Simpson on the actual,
possibly non-uniformly spaced samples; for an even sample count `N`:
trapezoid when `N = 2`, otherwise Simpson over the first `N - 1` samples
plus the Cartwright parabolic correction for the last interval, with
scipy's zero-guarded divisions. -/
def simpson (y x : List ℚ) : ℚ :=
  let n := y.length
  if n % 2 == 1 then
    basicSimpson y x
  else if n == 2 then
    (x.getD 1 0 - x.getD 0 0) * (y.getD 0 0 + y.getD 1 0) / 2
  else
    let h0 := x.getD (n - 2) 0 - x.getD (n - 3) 0
    let h1 := x.getD (n - 1) 0 - x.getD (n - 2) 0
    let alpha := (2 * h1 ^ 2 + 3 * h0 * h1) / (6 * (h1 + h0))
    let beta := (h1 ^ 2 + 3 * h0 * h1) / (6 * h0)
    let eta := h1 ^ 3 / (6 * h0 * (h0 + h1))
    basicSimpson y x
      + (alpha * y.getD (n - 1) 0 + beta * y.getD (n - 2) 0 - eta * y.getD (n - 3) 0)

/-- `integrate_signal` (src/qms_integrate.py, lines 13–83), plotting
side-effects omitted (they do not affect the returned value).
Returns `(area, baseline, mask)` or the raised error. -/
def integrate_signal (x y : List ℚ) (x_min x_max : ℚ) (correct_baseline : Bool) :
    Except QmsError (ℚ × List ℚ × List Bool) :=
  let mask := boolMask x x_min x_max
  if mask.count true < 3 then
    .error (.rangeError x_min x_max)
  else
    let x_region := maskSelect mask x
    let y_region := maskSelect mask y
    if correct_baseline then
      let slope := (y_region.getLastD 0 - y_region.headD 0) /
                   (x_region.getLastD 0 - x_region.headD 0)
      let intercept := y_region.headD 0 - slope * x_region.headD 0
      let baseline := x_region.map (fun v => slope * v + intercept)
      let y_corrected := List.zipWith (fun u w => u - w) y_region baseline
      .ok (simpson y_corrected x_region, baseline, mask)
    else
      let baseline := y_region.map (fun _ => (0 : ℚ))
      .ok (simpson y_region x_region, baseline, mask)

/-- Area projection of a single-channel result (`none` on error). -/
def areaOf (r : Except QmsError (ℚ × List ℚ × List Bool)) : Option ℚ :=
  match r with
  | .ok t => some t.1
  | .error _ => none

/-- Baseline-array projection of a single-channel result. -/
def baselineOf (r : Except QmsError (ℚ × List ℚ × List Bool)) : Option (List ℚ) :=
  match r with
  | .ok t => some t.2.1
  | .error _ => none

/-- Mask projection of a single-channel result. -/
def maskOf (r : Except QmsError (ℚ × List ℚ × List Bool)) : Option (List Bool) :=
  match r with
  | .ok t => some t.2.2
  | .error _ => none

/-- The raised error of a result, if any. -/
def errOf {α : Type} (r : Except QmsError α) : Option QmsError :=
  match r with
  | .error e => some e
  | .ok _ => none

/-- `integrate_multiple_masses` (src/qms_integrate.py, lines 86–160),
plotting side-effects omitted.  The Python function looks up the x-axis
channel before the loop (an absent `x_key` raises `KeyError`), converts the
window from minutes to seconds once, then accumulates `results[m]` in
iteration order, catching every per-channel exception and recording
`np.nan` (modelled `none`) for that channel. -/
def integrate_multiple_masses (data : Table) (x_key : String) (mass_keys : List String)
    (integration_range : ℚ × ℚ) (correct_baseline : Bool) :
    Except QmsError (List (String × Option ℚ)) :=
  match data.lookup x_key with
  | none => .error (.keyError x_key)
  | some x =>
      let x_min := integration_range.1 * 60
      let x_max := integration_range.2 * 60
      .ok (mass_keys.foldl (fun results m =>
        results ++ [(m,
          match data.lookup m with
          | none => none
          | some y =>
              match integrate_signal x y x_min x_max correct_baseline with
              | .ok t => some t.1
              | .error _ => none)]) [])

/-- `integrate_photon_flux` (src/qms_integrate.py, lines 163–227),
plotting side-effects omitted.  Checks both columns exist, scales the
photon channel, converts the optional window from minutes to seconds,
selects the window on the time axis, requires at least 2 samples, and
applies Simpson's rule with no baseline correction. -/
def integrate_photon_flux (data : Table) (time_key photon_key : String)
    (photon_scale : ℚ) (integration_range : Option (ℚ × ℚ)) : Except QmsError ℚ :=
  match data.lookup time_key, data.lookup photon_key with
  | some timeArr, some photonArr =>
      let photon_flux := photonArr.map (fun v => v * photon_scale)
      let regions :=
        match integration_range with
        | some r =>
            let t_min := r.1 * 60
            let t_max := r.2 * 60
            let m := boolMask timeArr t_min t_max
            (maskSelect m timeArr, maskSelect m photon_flux)
        | none => (timeArr, photon_flux)
      if regions.1.length < 2 then
        .error .narrowRange
      else
        .ok (simpson regions.2 regions.1)
  | _, _ => .error (.missingColumn time_key photon_key)

/-- Batch-result projection (`none` on a raised error). -/
def resultsOf (r : Except QmsError (List (String × Option ℚ))) :
    Option (List (String × Option ℚ)) :=
  match r with
  | .ok t => some t
  | .error _ => none

/-! ### IEEE non-finite model

The same source function, re-translated with the signal channel's values in
`Option ℚ`: `none` stands for a non-finite float (NaN or ±inf), and
arithmetic propagates non-finiteness as IEEE arithmetic propagates NaN.
The x-axis is kept finite (the claims concern non-finite signal data). -/

/-- An IEEE double restricted to this model: `none` non-finite, `some q` finite. -/
abbrev FVal := Option ℚ

/-- Addition with non-finite propagation. -/
def nadd : FVal → FVal → FVal
  | some a, some b => some (a + b)
  | _, _ => none

/-- Subtraction with non-finite propagation. -/
def nsub : FVal → FVal → FVal
  | some a, some b => some (a - b)
  | _, _ => none

/-- Multiplication with non-finite propagation. -/
def nmul : FVal → FVal → FVal
  | some a, some b => some (a * b)
  | _, _ => none

/-- Division: a zero divisor yields a non-finite result (±inf or NaN). -/
def ndiv : FVal → FVal → FVal
  | some a, some b => if b = 0 then none else some (a / b)
  | _, _ => none

/-- `simpsonTerm` with non-finite signal values (abscissae finite). -/
def simpsonTermI (y0 y1 y2 : FVal) (x0 x1 x2 : ℚ) : FVal :=
  let h0 := x1 - x0
  let h1 := x2 - x1
  let hsum := h0 + h1
  let hprod := h0 * h1
  let h0divh1 := h0 / h1
  nmul (some (hsum / 6))
    (nadd (nadd (nmul y0 (some (2 - 1 / h0divh1)))
                (nmul y1 (some (hsum * (hsum / hprod)))))
          (nmul y2 (some (2 - h0divh1))))

/-- `basicSimpson` with non-finite signal values. -/
def basicSimpsonI : List FVal → List ℚ → FVal
  | y0 :: y1 :: y2 :: ys, x0 :: x1 :: x2 :: xs =>
      nadd (simpsonTermI y0 y1 y2 x0 x1 x2) (basicSimpsonI (y2 :: ys) (x2 :: xs))
  | _, _ => some 0

/-- `simpson` with non-finite signal values. -/
def simpsonI (y : List FVal) (x : List ℚ) : FVal :=
  let n := y.length
  if n % 2 == 1 then
    basicSimpsonI y x
  else if n == 2 then
    ndiv (nmul (some (x.getD 1 0 - x.getD 0 0)) (nadd (y.getD 0 none) (y.getD 1 none)))
         (some 2)
  else
    let h0 := x.getD (n - 2) 0 - x.getD (n - 3) 0
    let h1 := x.getD (n - 1) 0 - x.getD (n - 2) 0
    let alpha := (2 * h1 ^ 2 + 3 * h0 * h1) / (6 * (h1 + h0))
    let beta := (h1 ^ 2 + 3 * h0 * h1) / (6 * h0)
    let eta := h1 ^ 3 / (6 * h0 * (h0 + h1))
    nadd (basicSimpsonI y x)
      (nsub (nadd (nmul (some alpha) (y.getD (n - 1) none))
                  (nmul (some beta) (y.getD (n - 2) none)))
            (nmul (some eta) (y.getD (n - 3) none)))

/-- `integrate_signal` re-translated with non-finite signal values (the
y-channel in `FVal`); identical control flow to the source: the only raise
is the sample-count check, which inspects the x-axis mask alone. -/
def integrate_signal_ieee (x : List ℚ) (y : List FVal) (x_min x_max : ℚ)
    (correct_baseline : Bool) : Except QmsError (FVal × List FVal × List Bool) :=
  let mask := boolMask x x_min x_max
  if mask.count true < 3 then
    .error (.rangeError x_min x_max)
  else
    let x_region := maskSelect mask x
    let y_region := maskSelect mask y
    if correct_baseline then
      let slope := ndiv (nsub (y_region.getLastD none) (y_region.headD none))
                        (some (x_region.getLastD 0 - x_region.headD 0))
      let intercept := nsub (y_region.headD none) (nmul slope (some (x_region.headD 0)))
      let baseline := x_region.map (fun v => nadd (nmul slope (some v)) intercept)
      let y_corrected := List.zipWith nsub y_region baseline
      .ok (simpsonI y_corrected x_region, baseline, mask)
    else
      let baseline := y_region.map (fun _ => (some 0 : FVal))
      .ok (simpsonI y_region x_region, baseline, mask)

/-- Area projection in the non-finite model (`none` on a raised error;
`some none` is a successful return whose area is itself non-finite). -/
def areaOfI (r : Except QmsError (FVal × List FVal × List Bool)) : Option FVal :=
  match r with
  | .ok t => some t.1
  | .error _ => none

/-! ### Structural lemmas -/

lemma boolMask_length (x : List ℚ) (lo hi : ℚ) : (boolMask x lo hi).length = x.length :=
  List.length_map x _

lemma maskSelect_nil {α : Type} (m : List Bool) : maskSelect m ([] : List α) = [] := by
  cases m <;> rfl

lemma maskSelect_cons {α : Type} (bb : Bool) (m : List Bool) (a : α) (v : List α) :
    maskSelect (bb :: m) (a :: v) =
      if bb then a :: maskSelect m v else maskSelect m v := by
  cases bb <;> simp [maskSelect]

lemma maskSelect_length {α : Type} :
    ∀ (m : List Bool) (v : List α), m.length = v.length →
      (maskSelect m v).length = m.count true
  | [], [], _ => by simp [maskSelect]
  | bb :: m, a :: v, h => by
      have ih := maskSelect_length m v (by simpa using h)
      cases bb <;> simp [maskSelect_cons, ih, List.count_cons]
  | [], _ :: _, h => by simp at h
  | _ :: _, [], h => by simp at h

lemma foldl_append_eq_map {α β : Type} (f : α → β) :
    ∀ (keys : List α) (acc : List (α × β)),
      keys.foldl (fun r m => r ++ [(m, f m)]) acc = acc ++ keys.map (fun m => (m, f m))
  | [], acc => by simp
  | k :: ks, acc => by
      simp only [List.foldl, List.map]
      rw [foldl_append_eq_map f ks (acc ++ [(k, f k)])]
      simp

/-- Unfolding of a successful `integrate_signal` call, both baseline modes. -/
lemma integrate_signal_of_count (x y : List ℚ) (lo hi : ℚ)
    (h : ¬ (boolMask x lo hi).count true < 3) :
    (integrate_signal x y lo hi true =
      .ok (simpson
            (List.zipWith (fun u w => u - w) (maskSelect (boolMask x lo hi) y)
              ((maskSelect (boolMask x lo hi) x).map (fun v =>
                ((maskSelect (boolMask x lo hi) y).getLastD 0 -
                    (maskSelect (boolMask x lo hi) y).headD 0) /
                  ((maskSelect (boolMask x lo hi) x).getLastD 0 -
                    (maskSelect (boolMask x lo hi) x).headD 0) * v +
                ((maskSelect (boolMask x lo hi) y).headD 0 -
                  ((maskSelect (boolMask x lo hi) y).getLastD 0 -
                      (maskSelect (boolMask x lo hi) y).headD 0) /
                    ((maskSelect (boolMask x lo hi) x).getLastD 0 -
                      (maskSelect (boolMask x lo hi) x).headD 0) *
                    (maskSelect (boolMask x lo hi) x).headD 0))))
            (maskSelect (boolMask x lo hi) x),
          (maskSelect (boolMask x lo hi) x).map (fun v =>
            ((maskSelect (boolMask x lo hi) y).getLastD 0 -
                (maskSelect (boolMask x lo hi) y).headD 0) /
              ((maskSelect (boolMask x lo hi) x).getLastD 0 -
                (maskSelect (boolMask x lo hi) x).headD 0) * v +
            ((maskSelect (boolMask x lo hi) y).headD 0 -
              ((maskSelect (boolMask x lo hi) y).getLastD 0 -
                  (maskSelect (boolMask x lo hi) y).headD 0) /
                ((maskSelect (boolMask x lo hi) x).getLastD 0 -
                  (maskSelect (boolMask x lo hi) x).headD 0) *
                (maskSelect (boolMask x lo hi) x).headD 0)),
          boolMask x lo hi))
    ∧ integrate_signal x y lo hi false =
      .ok (simpson (maskSelect (boolMask x lo hi) y) (maskSelect (boolMask x lo hi) x),
          (maskSelect (boolMask x lo hi) y).map (fun _ => (0 : ℚ)),
          boolMask x lo hi) := by
  constructor <;> simp [integrate_signal, h]

/-! ### Claim C6 -/

/-- C6: `integrate_flux` fails with a `MissingColumnError` naming the absent
key(s) whenever `time_key` or `photon_key` is missing from the table; the
whole result is that error, so no partial result is produced. -/
theorem integrate_photon_flux_missing_column_error (data : Table) (tk pk : String)
    (s : ℚ) (rng : Option (ℚ × ℚ))
    (h : data.lookup tk = none ∨ data.lookup pk = none) :
    integrate_photon_flux data tk pk s rng = .error (.missingColumn tk pk) := by
  rcases h with h | h
  · cases hp : data.lookup pk <;> simp [integrate_photon_flux, h, hp]
  · cases ht : data.lookup tk <;> simp [integrate_photon_flux, h, ht]

/-- Witness for C6 at a concrete table missing the time column. -/
theorem integrate_photon_flux_missing_column_error_witness :
    (List.lookup "TimesExp" ([("PhCurrentA", [1, 2])] : Table) = none ∨
      List.lookup "PhCurrentA" ([("PhCurrentA", [1, 2])] : Table) = none) ∧
    integrate_photon_flux [("PhCurrentA", [1, 2])] "TimesExp" "PhCurrentA" 1 none =
      .error (.missingColumn "TimesExp" "PhCurrentA") := by
  have h : List.lookup "TimesExp" ([("PhCurrentA", [1, 2])] : Table) = none := by rfl
  exact ⟨Or.inl h, integrate_photon_flux_missing_column_error _ _ _ _ _ (Or.inl h)⟩

/-! ### Claim C10 -/

/-- C10: if the x-axis key itself is absent, `integrate_multiple_masses`
raises the key-lookup error before processing any channel — the whole result
is that error, no partial mapping is returned; per-channel isolation never
applies to the shared x-axis lookup. -/
theorem integrate_multiple_masses_missing_x_key (data : Table) (x_key : String)
    (keys : List String) (rng : ℚ × ℚ) (cb : Bool)
    (h : data.lookup x_key = none) :
    integrate_multiple_masses data x_key keys rng cb = .error (.keyError x_key) := by
  simp [integrate_multiple_masses, h]

/-- Witness for C10 with an absent x-axis key and present channel keys. -/
theorem integrate_multiple_masses_missing_x_key_witness :
    (List.lookup "TimesExp" ([("28.00", [1, 2, 3])] : Table) = none) ∧
    integrate_multiple_masses [("28.00", [1, 2, 3])] "TimesExp" ["28.00"] (0, 5) true =
      .error (.keyError "TimesExp") := by
  have h : List.lookup "TimesExp" ([("28.00", [1, 2, 3])] : Table) = none := by rfl
  exact ⟨h, integrate_multiple_masses_missing_x_key _ _ _ _ _ h⟩

/-- Shared characterization: with the x-axis channel present, the batch
integrator returns one entry per requested key in the given order, each
entry's value the isolated outcome of that channel alone. -/
lemma integrate_multiple_masses_ok_eq (data : Table) (x_key : String)
    (keys : List String) (rng : ℚ × ℚ) (cb : Bool) (x : List ℚ)
    (hx : data.lookup x_key = some x) :
    integrate_multiple_masses data x_key keys rng cb =
      .ok (keys.map (fun m => (m, (data.lookup m).bind
        (fun y => areaOf (integrate_signal x y (rng.1 * 60) (rng.2 * 60) cb))))) := by
  simp only [integrate_multiple_masses, hx]
  rw [foldl_append_eq_map]
  rw [List.nil_append]
  refine congrArg Except.ok (List.map_congr_left fun m _ => ?_)
  cases h1 : data.lookup m with
  | none => simp
  | some y =>
      cases h2 : integrate_signal x y (rng.1 * 60) (rng.2 * 60) cb <;>
        simp [areaOf, h2]

/-! ### Claim C4 -/

/-- C4: with the x-axis channel present, `integrate_multiple_masses` never
raises; it returns one entry per requested channel key, in the given order,
and each entry's value is exactly the isolated outcome of that channel's own
single-channel integration on the shared (minute→second converted) window:
`some area` on success and the `none` (NaN) sentinel on any failure — a
missing key or a raised `RangeError` — independent of every other channel.
(The `Nodup` hypothesis matches the Python dict, which coalesces repeated
request keys.) -/
theorem integrate_multiple_masses_isolates (data : Table) (x_key : String)
    (keys : List String) (rng : ℚ × ℚ) (cb : Bool) (x : List ℚ)
    (_hnd : keys.Nodup) (hx : data.lookup x_key = some x) :
    integrate_multiple_masses data x_key keys rng cb =
      .ok (keys.map (fun m => (m, (data.lookup m).bind
        (fun y => areaOf (integrate_signal x y (rng.1 * 60) (rng.2 * 60) cb))))) :=
  integrate_multiple_masses_ok_eq data x_key keys rng cb x hx

set_option maxHeartbeats 2000000 in
/-- Witness for C4: the spec's `["A", "B", "MISSING"]` scenario — numeric
areas for the present channels, the NaN sentinel for the absent one, in
request order, with no raise. -/
theorem integrate_multiple_masses_isolates_witness :
    (["A", "B", "MISSING"] : List String).Nodup ∧
    List.lookup "time"
        ([("time", [0, 60, 120, 180, 240, 300]), ("A", [2, 2, 2, 2, 2, 2]),
          ("B", [0, 60, 120, 180, 240, 300])] : Table) =
      some [0, 60, 120, 180, 240, 300] ∧
    integrate_multiple_masses
        [("time", [0, 60, 120, 180, 240, 300]), ("A", [2, 2, 2, 2, 2, 2]),
          ("B", [0, 60, 120, 180, 240, 300])]
        "time" ["A", "B", "MISSING"] (0, 5) false =
      .ok ((["A", "B", "MISSING"] : List String).map (fun m =>
        (m, (List.lookup m
              ([("time", [0, 60, 120, 180, 240, 300]), ("A", [2, 2, 2, 2, 2, 2]),
                ("B", [0, 60, 120, 180, 240, 300])] : Table)).bind
          (fun y => areaOf (integrate_signal [0, 60, 120, 180, 240, 300] y
            ((0 : ℚ) * 60) ((5 : ℚ) * 60) false))))) ∧
    resultsOf (integrate_multiple_masses
        [("time", [0, 60, 120, 180, 240, 300]), ("A", [2, 2, 2, 2, 2, 2]),
          ("B", [0, 60, 120, 180, 240, 300])]
        "time" ["A", "B", "MISSING"] (0, 5) false) =
      some [("A", some 600), ("B", some 45000), ("MISSING", none)] := by
  have happ := integrate_multiple_masses_isolates
    [("time", [0, 60, 120, 180, 240, 300]), ("A", [2, 2, 2, 2, 2, 2]),
      ("B", [0, 60, 120, 180, 240, 300])]
    "time" ["A", "B", "MISSING"] (0, 5) false [0, 60, 120, 180, 240, 300]
    (by decide) (by rfl)
  refine ⟨by decide, by rfl, happ, ?_⟩
  rw [happ]
  norm_num [integrate_signal, boolMask, maskSelect, simpson, basicSimpson, simpsonTerm,
    areaOf, resultsOf, List.lookup,
    show ("A" == "time") = false from rfl, show ("B" == "time") = false from rfl,
    show ("MISSING" == "time") = false from rfl, show ("A" == "A") = true from rfl,
    show ("B" == "A") = false from rfl, show ("B" == "B") = true from rfl,
    show ("MISSING" == "A") = false from rfl, show ("MISSING" == "B") = false from rfl]

/-! ### Claim C1 -/

/-- C1: on any equal-length data with a window selecting at least 3 samples,
`integrate_signal` with `correct_baseline = true` subtracts from each
selected sample the unique line through the first and last selected samples
(any affine function `v ↦ a*v + b` interpolating those two points — unique
since their abscissae differ — is the subtracted baseline) before applying
Simpson's rule; with `correct_baseline = false` it subtracts the zero
function, the area being Simpson's rule on the raw selected samples. -/
theorem integrate_signal_baseline_model (x y : List ℚ) (lo hi a b : ℚ)
    (_hlen : x.length = y.length)
    (hcount : 3 ≤ (boolMask x lo hi).count true)
    (hne : (maskSelect (boolMask x lo hi) x).headD 0 ≠
      (maskSelect (boolMask x lo hi) x).getLastD 0)
    (hfirst : a * (maskSelect (boolMask x lo hi) x).headD 0 + b =
      (maskSelect (boolMask x lo hi) y).headD 0)
    (hlast : a * (maskSelect (boolMask x lo hi) x).getLastD 0 + b =
      (maskSelect (boolMask x lo hi) y).getLastD 0) :
    integrate_signal x y lo hi true =
      .ok (simpson (List.zipWith (fun u w => u - w) (maskSelect (boolMask x lo hi) y)
            ((maskSelect (boolMask x lo hi) x).map (fun v => a * v + b)))
          (maskSelect (boolMask x lo hi) x),
        (maskSelect (boolMask x lo hi) x).map (fun v => a * v + b),
        boolMask x lo hi)
    ∧ integrate_signal x y lo hi false =
      .ok (simpson (maskSelect (boolMask x lo hi) y) (maskSelect (boolMask x lo hi) x),
        (maskSelect (boolMask x lo hi) y).map (fun _ => (0 : ℚ)),
        boolMask x lo hi) := by
  have h3 : ¬ (boolMask x lo hi).count true < 3 := by omega
  obtain ⟨ht, hf⟩ := integrate_signal_of_count x y lo hi h3
  refine ⟨?_, hf⟩
  rw [ht]
  set xh := (maskSelect (boolMask x lo hi) x).headD 0 with hxh
  set xl := (maskSelect (boolMask x lo hi) x).getLastD 0 with hxl
  set yh := (maskSelect (boolMask x lo hi) y).headD 0 with hyh
  set yl := (maskSelect (boolMask x lo hi) y).getLastD 0 with hyl
  have hd : xl - xh ≠ 0 := sub_ne_zero_of_ne (Ne.symm hne)
  have hsl : (yl - yh) / (xl - xh) = a := by
    rw [← hfirst, ← hlast]
    rw [show a * xl + b - (a * xh + b) = a * (xl - xh) from by ring]
    rw [mul_div_assoc, div_self hd, mul_one]
  have hb : yh - a * xh = b := by
    rw [← hfirst]; ring
  rw [hsl, hb]

/-- Witness for C1: the spec's regression scenario `x = [0..5]`,
`y = [10,12,11,13,50,12]`, window `[0,5]`, line through `(0,10)` and
`(5,12)` i.e. `v ↦ (2/5)v + 10`; the baseline-corrected area evaluates to
`515/12`. -/
theorem integrate_signal_baseline_model_witness :
    ([0, 1, 2, 3, 4, 5] : List ℚ).length = ([10, 12, 11, 13, 50, 12] : List ℚ).length ∧
    3 ≤ (boolMask [0, 1, 2, 3, 4, 5] 0 5).count true ∧
    (integrate_signal [0, 1, 2, 3, 4, 5] [10, 12, 11, 13, 50, 12] 0 5 true =
      .ok (simpson (List.zipWith (fun u w => u - w)
            (maskSelect (boolMask [0, 1, 2, 3, 4, 5] 0 5) [10, 12, 11, 13, 50, 12])
            ((maskSelect (boolMask [0, 1, 2, 3, 4, 5] 0 5) [0, 1, 2, 3, 4, 5]).map
              (fun v => (2 / 5 : ℚ) * v + 10)))
          (maskSelect (boolMask [0, 1, 2, 3, 4, 5] 0 5) [0, 1, 2, 3, 4, 5]),
        (maskSelect (boolMask [0, 1, 2, 3, 4, 5] 0 5) [0, 1, 2, 3, 4, 5]).map
          (fun v => (2 / 5 : ℚ) * v + 10),
        boolMask [0, 1, 2, 3, 4, 5] 0 5)
    ∧ integrate_signal [0, 1, 2, 3, 4, 5] [10, 12, 11, 13, 50, 12] 0 5 false =
      .ok (simpson (maskSelect (boolMask [0, 1, 2, 3, 4, 5] 0 5) [10, 12, 11, 13, 50, 12])
            (maskSelect (boolMask [0, 1, 2, 3, 4, 5] 0 5) [0, 1, 2, 3, 4, 5]),
        (maskSelect (boolMask [0, 1, 2, 3, 4, 5] 0 5) [10, 12, 11, 13, 50, 12]).map
          (fun _ => (0 : ℚ)),
        boolMask [0, 1, 2, 3, 4, 5] 0 5)) ∧
    areaOf (integrate_signal [0, 1, 2, 3, 4, 5] [10, 12, 11, 13, 50, 12] 0 5 true) =
      some (515 / 12) := by
  refine ⟨by decide, by decide,
    integrate_signal_baseline_model [0, 1, 2, 3, 4, 5] [10, 12, 11, 13, 50, 12] 0 5
      (2 / 5) 10 (by decide) (by decide) (by decide) (by norm_num [boolMask, maskSelect])
      (by norm_num [boolMask, maskSelect]), ?_⟩
  norm_num [integrate_signal, boolMask, maskSelect, simpson, basicSimpson, simpsonTerm,
    areaOf]

/-! ### Claim C3 -/

/-- C3 counterexample to "naming … the available data extent": the raised
error is exactly `rangeError x_min x_max` — a function of the requested
window alone.  Two tables with different data extents ([10,30] vs
[1000,3000]) produce the identical error value, so the error cannot name
the available data extent (the Python message interpolates only `x_min`
and `x_max` plus fixed text). -/
theorem range_error_extent_counterexample :
    errOf (integrate_signal [10, 20, 30] [1, 1, 1] 0 1 true) = some (.rangeError 0 1) ∧
    errOf (integrate_signal [1000, 2000, 3000] [1, 1, 1] 0 1 true) =
      some (.rangeError 0 1) ∧
    (10 : ℚ) ≠ 1000 := by
  refine ⟨?_, ?_, by norm_num⟩ <;> decide

/-- C3 (amended): `integrate_signal` raises `RangeError` — naming the
requested window — exactly when the window selects fewer than 3 samples
(so a window selecting exactly 3 samples succeeds), and with both columns
present the flux integrator raises its `RangeError` exactly when the
window selects fewer than 2 samples. -/
theorem range_floor_errors :
    (∀ (x y : List ℚ) (lo hi : ℚ) (cb : Bool),
      errOf (integrate_signal x y lo hi cb) = some (.rangeError lo hi) ↔
        (boolMask x lo hi).count true < 3)
    ∧ (∀ (data : Table) (tk pk : String) (s lo hi : ℚ) (t p : List ℚ),
        data.lookup tk = some t → data.lookup pk = some p →
        (errOf (integrate_photon_flux data tk pk s (some (lo, hi))) = some .narrowRange ↔
          (boolMask t (lo * 60) (hi * 60)).count true < 2)) := by
  constructor
  · intro x y lo hi cb
    by_cases h : (boolMask x lo hi).count true < 3 <;>
      cases cb <;> simp [integrate_signal, h, errOf]
  · intro data tk pk s lo hi t p ht hp
    have hl : (maskSelect (boolMask t (lo * 60) (hi * 60)) t).length =
        (boolMask t (lo * 60) (hi * 60)).count true :=
      maskSelect_length _ _ (boolMask_length t _ _)
    by_cases h2 : (boolMask t (lo * 60) (hi * 60)).count true < 2 <;>
      simp [integrate_photon_flux, ht, hp, hl, h2, errOf]

/-- Witness for C3's amended theorem: the single-channel part at a window
selecting exactly 3 samples (succeeds), and the flux part with both
columns present at a window selecting exactly 2 samples (succeeds). -/
theorem range_floor_errors_witness :
    (errOf (integrate_signal [0, 1, 2, 3, 4] [7, 7, 7, 7, 7] 1 3 true) =
        some (.rangeError 1 3) ↔ (boolMask [0, 1, 2, 3, 4] 1 3).count true < 3) ∧
    (List.lookup "TimesExp" ([("TimesExp", [0, 60, 120]), ("PhCurrentA", [1, 1, 1])] : Table) =
      some [0, 60, 120]) ∧
    (List.lookup "PhCurrentA" ([("TimesExp", [0, 60, 120]), ("PhCurrentA", [1, 1, 1])] : Table) =
      some [1, 1, 1]) ∧
    (errOf (integrate_photon_flux [("TimesExp", [0, 60, 120]), ("PhCurrentA", [1, 1, 1])]
        "TimesExp" "PhCurrentA" 1 (some (0, 1))) = some .narrowRange ↔
      (boolMask [0, 60, 120] ((0 : ℚ) * 60) ((1 : ℚ) * 60)).count true < 2) :=
  ⟨range_floor_errors.1 [0, 1, 2, 3, 4] [7, 7, 7, 7, 7] 1 3 true, rfl, rfl,
    range_floor_errors.2 [("TimesExp", [0, 60, 120]), ("PhCurrentA", [1, 1, 1])]
      "TimesExp" "PhCurrentA" 1 0 1 [0, 60, 120] [1, 1, 1] rfl rfl⟩

/-! ### Claim C5 -/

/-- C5: with both columns present and the (minute→second converted) window
selecting at least 3 time samples, the flux integrator's result is exactly
the single-channel integrator's area on the derived channel
`table[photon_key] * scale` over the same window with
`correct_baseline = false` — same window selection, same Simpson's rule,
and no baseline subtraction. -/
theorem integrate_photon_flux_no_baseline (data : Table) (tk pk : String)
    (s a b : ℚ) (t p : List ℚ)
    (ht : data.lookup tk = some t) (hp : data.lookup pk = some p)
    (hc : 3 ≤ (boolMask t (a * 60) (b * 60)).count true) :
    ∃ A, integrate_photon_flux data tk pk s (some (a, b)) = .ok A ∧
      areaOf (integrate_signal t (p.map (fun v => v * s)) (a * 60) (b * 60) false) =
        some A := by
  have hl : (maskSelect (boolMask t (a * 60) (b * 60)) t).length =
      (boolMask t (a * 60) (b * 60)).count true :=
    maskSelect_length _ _ (boolMask_length t _ _)
  have h2 : ¬ (maskSelect (boolMask t (a * 60) (b * 60)) t).length < 2 := by omega
  have h3 : ¬ (boolMask t (a * 60) (b * 60)).count true < 3 := by omega
  obtain ⟨_, hf⟩ := integrate_signal_of_count t (p.map (fun v => v * s)) (a * 60) (b * 60) h3
  refine ⟨simpson (maskSelect (boolMask t (a * 60) (b * 60)) (p.map (fun v => v * s)))
      (maskSelect (boolMask t (a * 60) (b * 60)) t), ?_, ?_⟩
  · simp [integrate_photon_flux, ht, hp, h2]
  · rw [hf]; simp [areaOf]

/-- Witness for C5: the spec's concrete flux scenario —
`scale = 1.924e22`, `flux_source = [1e-9]*5`, `time = [0,60,120,180,240]`
seconds, window `[0,4]` minutes; the area is exactly
`1.924e22 * 1e-9 * 240` (Simpson is exact on a constant), with no baseline
subtraction. -/
theorem integrate_photon_flux_no_baseline_witness :
    (List.lookup "TimesExp"
        ([("TimesExp", [0, 60, 120, 180, 240]),
          ("PhCurrentA", [1e-9, 1e-9, 1e-9, 1e-9, 1e-9])] : Table) =
      some [0, 60, 120, 180, 240]) ∧
    (List.lookup "PhCurrentA"
        ([("TimesExp", [0, 60, 120, 180, 240]),
          ("PhCurrentA", [1e-9, 1e-9, 1e-9, 1e-9, 1e-9])] : Table) =
      some [1e-9, 1e-9, 1e-9, 1e-9, 1e-9]) ∧
    3 ≤ (boolMask [0, 60, 120, 180, 240] ((0 : ℚ) * 60) ((4 : ℚ) * 60)).count true ∧
    (∃ A, integrate_photon_flux
        [("TimesExp", [0, 60, 120, 180, 240]),
          ("PhCurrentA", [1e-9, 1e-9, 1e-9, 1e-9, 1e-9])]
        "TimesExp" "PhCurrentA" 1.924e22 (some (0, 4)) = .ok A ∧
      areaOf (integrate_signal [0, 60, 120, 180, 240]
          (([1e-9, 1e-9, 1e-9, 1e-9, 1e-9] : List ℚ).map (fun v => v * 1.924e22))
          ((0 : ℚ) * 60) ((4 : ℚ) * 60) false) = some A) ∧
    integrate_photon_flux
        [("TimesExp", [0, 60, 120, 180, 240]),
          ("PhCurrentA", [1e-9, 1e-9, 1e-9, 1e-9, 1e-9])]
        "TimesExp" "PhCurrentA" 1.924e22 (some (0, 4)) =
      .ok (1.924e22 * 1e-9 * 240) := by
  refine ⟨rfl, rfl, by norm_num [boolMask, List.count_cons],
    integrate_photon_flux_no_baseline _ "TimesExp" "PhCurrentA" 1.924e22 0 4
      [0, 60, 120, 180, 240] [1e-9, 1e-9, 1e-9, 1e-9, 1e-9] rfl rfl
      (by norm_num [boolMask, List.count_cons]), ?_⟩
  norm_num [integrate_photon_flux, boolMask, maskSelect, simpson, basicSimpson,
    simpsonTerm, List.lookup, show ("PhCurrentA" == "TimesExp") = false from rfl,
    show ("PhCurrentA" == "PhCurrentA") = true from rfl,
    show ("TimesExp" == "TimesExp") = true from rfl]

/-! ### Claim C8 -/

/-- C8 counterexample: for `x = [0,1,2,3,4]`, window `[1,3]`, the returned
mask has the full length 5, but the returned baseline array has length 3 —
the baseline is aligned to the selected region, not to the full x-array as
claimed. -/
theorem baseline_length_counterexample :
    (baselineOf (integrate_signal [0, 1, 2, 3, 4] [0, 0, 10, 0, 0] 1 3 true)).map
        List.length = some 3 ∧
    (maskOf (integrate_signal [0, 1, 2, 3, 4] [0, 0, 10, 0, 0] 1 3 true)).map
        List.length = some 5 ∧
    (3 : Nat) ≠ 5 := by
  refine ⟨?_, ?_, by omega⟩ <;> decide

/-- C8 (amended): on every successful call the returned boolean mask has
the same length as the full input x-array, while the returned baseline
array has the length of the selected region (the number of selected
samples). -/
theorem result_component_lengths (x y : List ℚ) (lo hi : ℚ) (cb : Bool)
    (hlen : x.length = y.length)
    (hc : 3 ≤ (boolMask x lo hi).count true) :
    (maskOf (integrate_signal x y lo hi cb)).map List.length = some x.length ∧
    (baselineOf (integrate_signal x y lo hi cb)).map List.length =
      some ((boolMask x lo hi).count true) := by
  have h3 : ¬ (boolMask x lo hi).count true < 3 := by omega
  obtain ⟨ht, hf⟩ := integrate_signal_of_count x y lo hi h3
  have hmx : (boolMask x lo hi).length = x.length := boolMask_length x lo hi
  have hxr : (maskSelect (boolMask x lo hi) x).length = (boolMask x lo hi).count true :=
    maskSelect_length _ _ hmx
  have hyr : (maskSelect (boolMask x lo hi) y).length = (boolMask x lo hi).count true :=
    maskSelect_length _ _ (by rw [hmx, hlen])
  cases cb
  · rw [hf]; simp [maskOf, baselineOf, hmx, hyr]
  · rw [ht]; simp [maskOf, baselineOf, hmx, hxr]

/-- Witness for C8's amended theorem at `x = [0,1,2,3,4]`, window `[1,3]`:
mask length 5, baseline length 3. -/
theorem result_component_lengths_witness :
    ([0, 1, 2, 3, 4] : List ℚ).length = ([0, 0, 10, 0, 0] : List ℚ).length ∧
    3 ≤ (boolMask [0, 1, 2, 3, 4] 1 3).count true ∧
    ((maskOf (integrate_signal [0, 1, 2, 3, 4] [0, 0, 10, 0, 0] 1 3 false)).map
        List.length = some ([0, 1, 2, 3, 4] : List ℚ).length ∧
      (baselineOf (integrate_signal [0, 1, 2, 3, 4] [0, 0, 10, 0, 0] 1 3 false)).map
          List.length = some ((boolMask [0, 1, 2, 3, 4] 1 3).count true)) :=
  ⟨by decide, by decide,
    result_component_lengths [0, 1, 2, 3, 4] [0, 0, 10, 0, 0] 1 3 false
      (by decide) (by decide)⟩

/-! ### Claim C9 -/

/-- C9 counterexample: a channel whose in-window samples are all non-finite
(`none` in the IEEE model) is not rejected — the call succeeds and returns a
non-finite area (`some none`), the silent-NaN behaviour the claim denies. -/
theorem nonfinite_channel_not_rejected :
    areaOfI (integrate_signal_ieee [0, 1, 2, 3, 4] [none, none, none, none, none]
      0 4 true) = some none := by
  decide

/-- C9 (amended): the single-channel integrator performs no finiteness
check: its only rejection is the fewer-than-3-samples `RangeError`, whose
condition depends only on the x-axis and the window, never on the signal
values — so an all-non-finite channel is integrated silently (to a
non-finite area) rather than rejected. -/
theorem ieee_error_iff_count (x : List ℚ) (y : List FVal) (lo hi : ℚ) (cb : Bool) :
    errOf (integrate_signal_ieee x y lo hi cb) = some (.rangeError lo hi) ↔
      (boolMask x lo hi).count true < 3 := by
  by_cases h : (boolMask x lo hi).count true < 3 <;>
    cases cb <;> simp [integrate_signal_ieee, h, errOf]

/-! ### Reversal lemmas (for claim C2) -/

lemma zip_reverse {α β : Type} (l₁ : List α) (l₂ : List β) (h : l₁.length = l₂.length) :
    l₁.reverse.zip l₂.reverse = (l₁.zip l₂).reverse := by
  have h2 := List.reverse_zipWith (f := Prod.mk) h
  simp only [List.zip]
  exact h2.symm

lemma maskSelect_reverse {α : Type} (m : List Bool) (v : List α) (h : m.length = v.length) :
    maskSelect m.reverse v.reverse = (maskSelect m v).reverse := by
  unfold maskSelect
  rw [zip_reverse m v h, List.filter_reverse, List.map_reverse]

lemma headD_reverse {α : Type} (l : List α) (d : α) : l.reverse.headD d = l.getLastD d := by
  rw [List.headD_eq_head?, List.head?_reverse, List.getLastD_eq_getLast?]

lemma getLastD_reverse {α : Type} (l : List α) (d : α) : l.reverse.getLastD d = l.headD d := by
  rw [List.getLastD_eq_getLast?, List.getLast?_reverse, List.headD_eq_head?]
lemma simpsonTerm_rev (y0 y1 y2 x0 x1 x2 : ℚ) :
    simpsonTerm y2 y1 y0 x2 x1 x0 = -simpsonTerm y0 y1 y2 x0 x1 x2 := by
  simp only [simpsonTerm]
  rw [show x1 - x2 = -(x2 - x1) from by ring, show x0 - x1 = -(x1 - x0) from by ring]
  simp only [neg_div_neg_eq, one_div_div, neg_mul_neg]
  ring

lemma basicSimpson_append (a1 a2 b1 b2 : ℚ) :
    ∀ (n : Nat) (y x : List ℚ), y.length = n → y.length = x.length →
      y.length % 2 = 1 →
      basicSimpson (y ++ [a1, a2]) (x ++ [b1, b2]) =
        basicSimpson y x + simpsonTerm (y.getLastD 0) a1 a2 (x.getLastD 0) b1 b2 := by
  intro n
  induction n using Nat.strong_induction_on with
  | _ n ih =>
    intro y x hn hlen hodd
    rcases y with _ | ⟨u1, _ | ⟨u2, _ | ⟨u3, us⟩⟩⟩
    · simp at hodd
    · -- y = [u1]
      rcases x with _ | ⟨w1, _ | ⟨w2, ws⟩⟩
      · simp at hlen
      · simp [basicSimpson]
      · simp at hlen
    · -- y = [u1, u2]
      simp at hodd
    · -- y = u1 :: u2 :: u3 :: us
      rcases x with _ | ⟨w1, _ | ⟨w2, _ | ⟨w3, ws⟩⟩⟩
      · simp at hlen
      · simp at hlen
      · simp at hlen
      · have hlen2 : (u3 :: us).length = (w3 :: ws).length := by
          simpa using hlen
        have hodd2 : (u3 :: us).length % 2 = 1 := by
          simp only [List.length_cons] at hodd ⊢
          omega
        have hlt : (u3 :: us).length < n := by
          simp only [List.length_cons] at hn ⊢
          omega
        have ih2 := ih _ hlt (u3 :: us) (w3 :: ws) rfl hlen2 hodd2
        simp only [List.cons_append, basicSimpson, List.append_eq]
        simp only [List.cons_append] at ih2
        rw [ih2]
        rw [List.getLastD_eq_getLast?, List.getLastD_eq_getLast?,
          List.getLastD_eq_getLast?, List.getLastD_eq_getLast?,
          List.getLast?_cons_cons, List.getLast?_cons_cons,
          List.getLast?_cons_cons, List.getLast?_cons_cons]
        ring

lemma basicSimpson_reverse :
    ∀ (n : Nat) (y x : List ℚ), y.length = n → y.length = x.length →
      y.length % 2 = 1 →
      basicSimpson y.reverse x.reverse = -basicSimpson y x := by
  intro n
  induction n using Nat.strong_induction_on with
  | _ n ih =>
    intro y x hn hlen hodd
    rcases y with _ | ⟨u1, _ | ⟨u2, _ | ⟨u3, us⟩⟩⟩
    · simp at hodd
    · rcases x with _ | ⟨w1, _ | ⟨w2, ws⟩⟩
      · simp at hlen
      · simp [basicSimpson]
      · simp at hlen
    · simp at hodd
    · rcases x with _ | ⟨w1, _ | ⟨w2, _ | ⟨w3, ws⟩⟩⟩
      · simp at hlen
      · simp at hlen
      · simp at hlen
      · have hlen2 : (u3 :: us).length = (w3 :: ws).length := by simpa using hlen
        have hodd2 : (u3 :: us).length % 2 = 1 := by
          simp only [List.length_cons] at hodd ⊢; omega
        have hlt : (u3 :: us).length < n := by
          simp only [List.length_cons] at hn ⊢; omega
        have ih2 := ih _ hlt (u3 :: us) (w3 :: ws) rfl hlen2 hodd2
        have hrev : (u1 :: u2 :: u3 :: us).reverse = (u3 :: us).reverse ++ [u2, u1] := by
          simp
        have hrevx : (w1 :: w2 :: w3 :: ws).reverse = (w3 :: ws).reverse ++ [w2, w1] := by
          simp
        rw [hrev, hrevx]
        rw [basicSimpson_append u2 u1 w2 w1 (u3 :: us).reverse.length
          (u3 :: us).reverse (w3 :: ws).reverse rfl
          (by simpa using hlen2) (by simpa using hodd2)]
        rw [ih2]
        rw [List.getLastD_eq_getLast?, List.getLastD_eq_getLast?,
          List.getLast?_reverse, List.getLast?_reverse]
        simp only [List.head?_cons, Option.getD_some]
        rw [simpsonTerm_rev u1 u2 u3 w1 w2 w3]
        simp only [basicSimpson]
        ring

lemma simpson_reverse_odd (y x : List ℚ) (hlen : y.length = x.length)
    (hodd : y.length % 2 = 1) :
    simpson y.reverse x.reverse = -simpson y x := by
  have hbq : (y.length % 2 == 1) = true := by simp [hodd]
  simp only [simpson, List.length_reverse, hbq, if_true]
  exact basicSimpson_reverse y.length y x rfl hlen hodd

/-! ### Claim C2 -/

/-- C2 counterexample: the code has no orientation-aware selection and
never reverses the selected subsequence.  (i) With a decreasing x-array and
the window passed in decreasing orientation (`x_min = 2 > x_max = 0`), the
claimed reversed-comparison mask would select all three samples, but the
code's mask `x ≥ 2 ∧ x ≤ 0` selects none and the call raises `RangeError`.
(ii) Reversing both arrays and applying the same physical window `[0, 2]`
yields area `-2`, the negation of the non-reversed area `2`, not the same
area. -/
theorem reverse_not_area_preserving :
    areaOf (integrate_signal [0, 1, 2] [0, 1, 2] 0 2 false) = some 2 ∧
    areaOf (integrate_signal [2, 1, 0] [2, 1, 0] 0 2 false) = some (-2) ∧
    errOf (integrate_signal [2, 1, 0] [5, 6, 7] 2 0 false) = some (.rangeError 2 0) ∧
    (2 : ℚ) ≠ -2 := by
    refine ⟨?_, ?_, ?_, by norm_num⟩ <;>
      norm_num [integrate_signal, boolMask, maskSelect, simpson, basicSimpson,
        simpsonTerm, areaOf, errOf]

/-- C2 (amended): window selection uses the same comparisons
`x ≥ x_min ∧ x ≤ x_max` regardless of orientation (membership in the closed
interval is order-independent, so the same physical region is selected),
and the selected subsequence is *not* reversed before Simpson's rule; hence
reversing both `x` and `y` and applying the same physical window yields the
*negated* area (exactly, for an odd number of selected samples; with
baseline correction, provided the region's endpoint abscissae differ). -/
theorem integrate_signal_reverse_negates (x y : List ℚ) (lo hi : ℚ) (cb : Bool)
    (hlen : x.length = y.length)
    (hc : 3 ≤ (boolMask x lo hi).count true)
    (hodd : (boolMask x lo hi).count true % 2 = 1)
    (hne : cb = true → (maskSelect (boolMask x lo hi) x).headD 0 ≠
      (maskSelect (boolMask x lo hi) x).getLastD 0) :
    areaOf (integrate_signal x.reverse y.reverse lo hi cb) =
      (areaOf (integrate_signal x y lo hi cb)).map (fun q => -q) := by
  have hmx : (boolMask x lo hi).length = x.length := boolMask_length x lo hi
  have hmy : (boolMask x lo hi).length = y.length := by rw [hmx, hlen]
  have hmrev : boolMask x.reverse lo hi = (boolMask x lo hi).reverse := by
    unfold boolMask; exact List.map_reverse _ _
  have hcnt : (boolMask x.reverse lo hi).count true = (boolMask x lo hi).count true := by
    rw [hmrev, List.count_reverse]
  have h3 : ¬ (boolMask x lo hi).count true < 3 := by omega
  have h3r : ¬ (boolMask x.reverse lo hi).count true < 3 := by rw [hcnt]; exact h3
  have hxr : maskSelect (boolMask x.reverse lo hi) x.reverse =
      (maskSelect (boolMask x lo hi) x).reverse := by
    rw [hmrev]; exact maskSelect_reverse _ _ hmx
  have hyr : maskSelect (boolMask x.reverse lo hi) y.reverse =
      (maskSelect (boolMask x lo hi) y).reverse := by
    rw [hmrev]; exact maskSelect_reverse _ _ hmy
  have hlxr : (maskSelect (boolMask x lo hi) x).length = (boolMask x lo hi).count true :=
    maskSelect_length _ _ hmx
  have hlyr : (maskSelect (boolMask x lo hi) y).length = (boolMask x lo hi).count true :=
    maskSelect_length _ _ hmy
  cases cb with
  | false =>
      obtain ⟨_, hfr⟩ := integrate_signal_of_count x.reverse y.reverse lo hi h3r
      obtain ⟨_, hf⟩ := integrate_signal_of_count x y lo hi h3
      rw [hfr, hf]
      simp only [areaOf, Option.map_some]
      rw [hxr, hyr]
      rw [simpson_reverse_odd _ _ (by rw [hlyr, hlxr]) (by rw [hlyr]; exact hodd)]
      rfl
  | true =>
      obtain ⟨htr, _⟩ := integrate_signal_of_count x.reverse y.reverse lo hi h3r
      obtain ⟨ht, _⟩ := integrate_signal_of_count x y lo hi h3
      rw [htr, ht]
      simp only [areaOf, Option.map_some]
      rw [hxr, hyr]
      simp only [getLastD_reverse, headD_reverse]
      rw [show (maskSelect (boolMask x lo hi) y).headD 0 -
            (maskSelect (boolMask x lo hi) y).getLastD 0 =
          -((maskSelect (boolMask x lo hi) y).getLastD 0 -
            (maskSelect (boolMask x lo hi) y).headD 0) from by ring,
        show (maskSelect (boolMask x lo hi) x).headD 0 -
            (maskSelect (boolMask x lo hi) x).getLastD 0 =
          -((maskSelect (boolMask x lo hi) x).getLastD 0 -
            (maskSelect (boolMask x lo hi) x).headD 0) from by ring,
        neg_div_neg_eq]
      have hdd : (maskSelect (boolMask x lo hi) x).getLastD 0 -
          (maskSelect (boolMask x lo hi) x).headD 0 ≠ 0 :=
        sub_ne_zero_of_ne (Ne.symm (hne rfl))
      set sl := ((maskSelect (boolMask x lo hi) y).getLastD 0 -
          (maskSelect (boolMask x lo hi) y).headD 0) /
        ((maskSelect (boolMask x lo hi) x).getLastD 0 -
          (maskSelect (boolMask x lo hi) x).headD 0) with hsldef
      have hcancel : sl * ((maskSelect (boolMask x lo hi) x).getLastD 0 -
          (maskSelect (boolMask x lo hi) x).headD 0) =
          (maskSelect (boolMask x lo hi) y).getLastD 0 -
          (maskSelect (boolMask x lo hi) y).headD 0 := by
        rw [hsldef]; exact div_mul_cancel₀ _ hdd
      have h2 : sl * (maskSelect (boolMask x lo hi) x).getLastD 0 -
          sl * (maskSelect (boolMask x lo hi) x).headD 0 =
          (maskSelect (boolMask x lo hi) y).getLastD 0 -
          (maskSelect (boolMask x lo hi) y).headD 0 := by
        rw [← mul_sub]; exact hcancel
      have hint : (maskSelect (boolMask x lo hi) y).getLastD 0 -
          sl * (maskSelect (boolMask x lo hi) x).getLastD 0 =
          (maskSelect (boolMask x lo hi) y).headD 0 -
          sl * (maskSelect (boolMask x lo hi) x).headD 0 := by linarith
      rw [hint]
      rw [List.map_reverse]
      rw [← List.reverse_zipWith (by rw [hlyr, List.length_map, hlxr])]
      rw [simpson_reverse_odd _ _
        (by rw [List.length_zipWith, List.length_map, hlyr, hlxr]; simp)
        (by rw [List.length_zipWith, List.length_map, hlyr, hlxr]; simpa using hodd)]
      rfl

/-- Witness for C2's amended theorem at `x = y = [0,1,2]`, window `[0,2]`,
no baseline correction: the reversed trace integrates to `-2`, the negation
of the forward area `2`. -/
theorem integrate_signal_reverse_negates_witness :
    ([0, 1, 2] : List ℚ).length = ([0, 1, 2] : List ℚ).length ∧
    3 ≤ (boolMask [0, 1, 2] 0 2).count true ∧
    (boolMask [0, 1, 2] 0 2).count true % 2 = 1 ∧
    (areaOf (integrate_signal ([0, 1, 2] : List ℚ).reverse
        ([0, 1, 2] : List ℚ).reverse 0 2 false) =
      (areaOf (integrate_signal [0, 1, 2] [0, 1, 2] 0 2 false)).map (fun q => -q)) ∧
    areaOf (integrate_signal ([0, 1, 2] : List ℚ).reverse
        ([0, 1, 2] : List ℚ).reverse 0 2 false) = some (-2) := by
    refine ⟨rfl, by decide, by decide,
      integrate_signal_reverse_negates [0, 1, 2] [0, 1, 2] 0 2 false rfl
        (by decide) (by decide) (fun h => Bool.noConfusion h), ?_⟩
    norm_num [integrate_signal, boolMask, maskSelect, simpson, basicSimpson,
      simpsonTerm, areaOf]

/-! ### Claim C7 -/

/-- C7: the batch integrator multiplies the window by 60 *unconditionally* —
also when the x-axis is a temperature channel.  At the failing input
(temperature axis `[100,150,200,250,300]` K, window `(150, 250)` in native
Kelvin as the config documents for temperature mode), the converted window
`[9000, 15000]` selects nothing and the channel degrades to the NaN
sentinel, while the same window applied without conversion succeeds with
area 200. -/
theorem kelvin_window_converted_bug :
    resultsOf (integrate_multiple_masses
        [("TempAK", [100, 150, 200, 250, 300]), ("28.00", [1, 2, 5, 2, 1])]
        "TempAK" ["28.00"] (150, 250) true) = some [("28.00", none)] ∧
    areaOf (integrate_signal [100, 150, 200, 250, 300] [1, 2, 5, 2, 1]
      150 250 true) = some 200 := by
    constructor
    · rw [integrate_multiple_masses_ok_eq
        [("TempAK", [100, 150, 200, 250, 300]), ("28.00", [1, 2, 5, 2, 1])]
        "TempAK" ["28.00"] (150, 250) true [100, 150, 200, 250, 300] rfl]
      norm_num [resultsOf, List.lookup, areaOf, integrate_signal, boolMask,
        show ("28.00" == "TempAK") = false from rfl,
        show ("28.00" == "28.00") = true from rfl]
    · norm_num [integrate_signal, boolMask, maskSelect, simpson, basicSimpson,
        simpsonTerm, areaOf]

end QMSIce
